import Mathlib

/-!
Shallow embedding of the genetic-algorithm team optimizer
(`src/optimization/genetic_algorithm.py`, class `TeamOptimizer`).

Modelling conventions:
* IEEE-754 doubles are modelled by `Val`: a finite value is carried exactly as a
  rational; NaN and the two infinities are explicit constructors.  Comparisons
  follow float semantics (every comparison with NaN is false).
* Randomness is passed in explicitly: each random draw of the Python code
  (`random.random() > rate`, `random.randint`, `np.random.choice`) becomes an
  explicit argument (a `Bool`, a `Nat` choice reduced modulo the size of the
  range, or an oracle function).  Theorems quantify over all draws.
* Fallible operations (`random.randint` on an empty range, `np.random.choice`
  with an infeasible sample size, the `ValueError`s raised by `optimize` and
  `save_results`) return `Except GAErr`.
* The breeding pipeline of the generation loop (lines 365-373: `_select_parents`,
  `_crossover`, `_mutate`) is abstracted in the loop itself as an oracle
  `breed : population → fitnesses → slot → child × child`, standing for the pair
  of children produced by one iteration of the `while` loop; the individual
  operators `crossover` and `mutate` are embedded separately and in full.
-/

/-- Model of an IEEE-754 double as seen by the optimizer: NaN, the two
infinities, or a finite value represented exactly as a rational. -/
inductive Val : Type
  | nan : Val
  | pinf : Val
  | ninf : Val
  | num : ℚ → Val
deriving DecidableEq, Repr

namespace Val

/-- Float strict less-than: any comparison involving NaN is false; `ninf` is
below every non-NaN value other than itself and `pinf` is above. -/
def lt : Val → Val → Bool
  | _, nan => false
  | nan, _ => false
  | ninf, ninf => false
  | ninf, _ => true
  | num a, num b => decide (a < b)
  | num _, pinf => true
  | num _, ninf => false
  | pinf, _ => false

/-- True exactly on the NaN float (`np.isnan`). -/
def isNaN : Val → Bool
  | nan => true
  | _ => false

/-- True exactly on the two infinite floats (`np.isinf`). -/
def isInf : Val → Bool
  | pinf => true
  | ninf => true
  | _ => false

/-- A float is finite when it is neither NaN nor infinite. -/
def isFinite : Val → Bool
  | num _ => true
  | _ => false

end Val

/-- The largest finite float64, `np.finfo(np.float64).max` =
1.7976931348623157e308, exactly `(2^53 - 1) * 2^971`. -/
def maxFloat64 : ℚ := (((2 ^ 53 - 1) * 2 ^ 971 : ℕ) : ℚ)

/-- Embeds `np.nan_to_num(x, nan=0.0)` as used at lines 427-430 of
`optimize`: NaN becomes 0.0, while the infinities become the largest /
lowest finite float64 (numpy's defaults for `posinf` / `neginf`, which the
call does not override). -/
def nanToNum : Val → Val
  | .nan => .num 0
  | .pinf => .num maxFloat64
  | .ninf => .num (-maxFloat64)
  | .num q => .num q

/-- The four score arrays after the load-time sanitation pass of `optimize`
(lines 426-430): `nan_to_num` applied pointwise to one raw score column. -/
def sanitizePool (scores : ℕ → Val) : ℕ → Val := fun i => nanToNum (scores i)

/-- Embeds the `skill_coverage` sub-metric of `_calculate_fitness`
(lines 176-179):
`len(set(np.where(skill_matrix > 0.1)[0])) / max(1, 3 * len(chromosome))`.
`skill_matrix` has one row per team member and one column per skill, so
`np.where(...)[0]` lists the row index of every entry above 0.1 and `set`
collapses it to the distinct member positions having at least one score
above 0.1. -/
def calculateSkillCoverage (tech edu soft : ℕ → ℚ) (chromosome : List ℕ) : ℚ :=
  let coveredRows := (List.range chromosome.length).filter (fun i =>
    let c := chromosome.getD i 0
    decide (1 / 10 < tech c) || decide (1 / 10 < edu c) || decide (1 / 10 < soft c))
  (coveredRows.length : ℚ) / ((max 1 (3 * chromosome.length) : ℕ) : ℚ)

/-- Spec's reading of `skill_coverage` (claim C2), for comparison with the
code's `calculateSkillCoverage`: the number of (skill-dimension, member)
pairs whose score exceeds 0.1, divided by `3 × team_size`. -/
def skillCoverageSpec (tech edu soft : ℕ → ℚ) (chromosome : List ℕ) : ℚ :=
  let pairs := chromosome.foldl (fun acc c =>
    acc + (if 1 / 10 < tech c then 1 else 0) + (if 1 / 10 < edu c then 1 else 0)
        + (if 1 / 10 < soft c then 1 else 0)) (0 : ℕ)
  (pairs : ℚ) / ((3 * chromosome.length : ℕ) : ℚ)

/-- Error values standing for the `ValueError`s the Python code can raise. -/
inductive GAErr : Type
  | emptyRange        -- random.randint on an empty range
  | sampleTooLarge    -- np.random.choice, sample larger than population
  | negDimensions     -- np.random.choice with a negative size
  | noCandidates      -- optimize: neither candidates_df nor candidates_file
  | noArchetypes      -- optimize: archetypes is None and no archetypes_file
  | noResults         -- save_results: best_solutions is empty
deriving DecidableEq, Repr

/-- Embeds Python's `random.randint(lo, hi)` (both bounds inclusive): raises
`ValueError` when the range is empty, otherwise returns a value of `[lo, hi]`
selected by the explicit draw `choice` (reduced modulo the size of the range). -/
def randint (lo hi : ℤ) (choice : ℕ) : Except GAErr ℤ :=
  if hi < lo then .error .emptyRange
  else .ok (lo + (choice : ℤ) % (hi - lo + 1))

/-- One child of the ordered crossover of `_crossover` (lines 256-291):
positions `start..endi` hold the segment taken from the first parent, the
positions before `start` are filled from the head of `rem` (the other
parent's genes not in the segment) and the positions after `endi` continue
from `rem` where the prefix stopped; `count` is the number of positions
after the segment, `size - 1 - endi`. -/
def oxChild (start count : ℕ) (seg rem : List ℕ) : List ℕ :=
  rem.take start ++ seg ++ (rem.drop start).take count

/-- Both children of the performed ordered crossover, for a chosen segment
`[start, endi]` (lines 256-291 of `_crossover`). -/
def crossoverKids (start endi : ℕ) (p1 p2 : List ℕ) : List ℕ × List ℕ :=
  let size := p1.length
  let seg1 := (p1.drop start).take (endi + 1 - start)
  let seg2 := (p2.drop start).take (endi + 1 - start)
  let remaining1 := p2.filter (fun x => decide (x ∉ seg1))
  let remaining2 := p1.filter (fun x => decide (x ∉ seg2))
  (oxChild start (size - 1 - endi) seg1 remaining1,
   oxChild start (size - 1 - endi) seg2 remaining2)

/-- Embeds `_crossover` (lines 242-293).  `doCross` is the draw
`random.random() <= crossover_rate` (when false the parents are returned as
unmodified copies); `c1`, `c2` are the draws behind the two `random.randint`
calls selecting the segment `start = randint(0, size-2)`,
`end = randint(start+1, size-1)`. -/
def crossover (doCross : Bool) (c1 c2 : ℕ) (p1 p2 : List ℕ) :
    Except GAErr (List ℕ × List ℕ) :=
  if doCross = false then .ok (p1, p2)
  else
    match randint 0 ((p1.length : ℤ) - 2) c1 with
    | .error e => .error e
    | .ok s =>
      match randint (s + 1) ((p1.length : ℤ) - 1) c2 with
      | .error e => .error e
      | .ok e2 => .ok (crossoverKids s.toNat e2.toNat p1 p2)

/-- Embeds `np.setdiff1d(np.arange(num_candidates), mutated)` of `_mutate`
(lines 310-312): the sorted candidate indices not currently in the team. -/
def candidatesNotInTeam (numCandidates : ℕ) (mutated : List ℕ) : List ℕ :=
  (List.range numCandidates).filter (fun x => decide (x ∉ mutated))

/-- One position of `_mutate`'s loop body (lines 308-315), after the
mutation coin has come up heads: recompute the out-of-team candidates
against the current (possibly already mutated) chromosome, and if any exist
overwrite position `i` with one of them (`pick` is the `np.random.choice`
draw, reduced modulo the number of available candidates). -/
def mutateAt (numCandidates pick i : ℕ) (mutated : List ℕ) : List ℕ :=
  let avail := candidatesNotInTeam numCandidates mutated
  if avail.length = 0 then mutated
  else mutated.set i (avail.getD (pick % avail.length) 0)

/-- Embeds `_mutate` (lines 295-317): walk the positions left to right; at
position `i`, when the draw `flip i` (the event `random.random() <
mutation_rate`) is true, apply `mutateAt` to the current chromosome. -/
def mutate (numCandidates : ℕ) (flip : ℕ → Bool) (pick : ℕ → ℕ)
    (chromosome : List ℕ) : List ℕ :=
  (List.range chromosome.length).foldl
    (fun mutated i => if flip i then mutateAt numCandidates (pick i) i mutated else mutated)
    chromosome

/-- A valid chromosome for a pool of `numCandidates` candidates: pairwise
distinct genes, each a pool index below `numCandidates`. -/
def validChromosome (numCandidates : ℕ) (c : List ℕ) : Prop :=
  c.Nodup ∧ ∀ x ∈ c, x < numCandidates

/-- One call of `np.random.choice(num_candidates, size=team_size,
replace=False)` in the loop body of `_initialize_population` (lines
106-108): raises `ValueError` when `team_size` is negative ("negative
dimensions are not allowed") or exceeds the pool size ("Cannot take a larger
sample than population"); otherwise the drawn chromosome is given by the
sampling oracle `sample` (one RNG draw per loop index `j`). -/
def sampleChoice (numCandidates : ℕ) (teamSize : ℤ) (sample : ℕ → List ℕ)
    (j : ℕ) : Except GAErr (List ℕ) :=
  if teamSize < 0 then .error .negDimensions
  else if (numCandidates : ℤ) < teamSize then .error .sampleTooLarge
  else .ok (sample j)

/-- The `for _ in range(self.population_size)` loop of
`_initialize_population` (lines 103-109), over the list of loop indices:
each iteration draws one chromosome with `sampleChoice` and appends it; a
raised `ValueError` aborts the loop.  With no iterations the loop body (and
its validity check) never runs. -/
def initLoop (numCandidates : ℕ) (teamSize : ℤ) (sample : ℕ → List ℕ) :
    List ℕ → Except GAErr (List (List ℕ))
  | [] => .ok []
  | j :: rest =>
    match sampleChoice numCandidates teamSize sample j with
    | .error e => .error e
    | .ok c =>
      match initLoop numCandidates teamSize sample rest with
      | .error e => .error e
      | .ok cs => .ok (c :: cs)

/-- Embeds `_initialize_population` (lines 96-110): `population_size`
iterations, each drawing one chromosome by
`np.random.choice(num_candidates, size=team_size, replace=False)`.  The
sampling validity check happens inside each call, so with
`population_size = 0` the function returns an empty population without ever
raising. -/
def initializePopulation (numCandidates popSize : ℕ) (teamSize : ℤ)
    (sample : ℕ → List ℕ) : Except GAErr (List (List ℕ)) :=
  initLoop numCandidates teamSize sample (List.range popSize)

/-- An archetype as the orchestrator uses it: only its result key matters to
the claims modelled here. -/
structure Archetype : Type where
  name : String
deriving DecidableEq, Repr

/-- The per-archetype loop of `optimize` (lines 442-444): each archetype in
turn runs `optimize_for_archetype`, which begins by building the initial
population; a raised `ValueError` aborts the whole call.  The evolution loop
itself never raises for the inputs the claims quantify over, so only the
population initialization of each run is kept here. -/
def runArchetypes (numCandidates popSize : ℕ) (teamSize : ℤ)
    (sample : ℕ → List ℕ) : List Archetype → Except GAErr (List String)
  | [] => .ok []
  | a :: rest =>
    match initializePopulation numCandidates popSize teamSize sample with
    | .error e => .error e
    | .ok _ =>
      match runArchetypes numCandidates popSize teamSize sample rest with
      | .error e => .error e
      | .ok names => .ok (a.name :: names)

/-- Embeds the orchestrating `optimize` (lines 404-452).  `haveCandidates`
is false when neither `candidates_df` nor `candidates_file` was supplied
(`ValueError`, line 416); `archetypes = none` models `self.archetypes is
None` with no archetypes file (`ValueError`, line 437); afterwards each
archetype is run in order, and finally, when an output directory is set
(line 449), `save_results` raises `ValueError` if the result mapping is
empty (line 462).  On success the result keys are returned in order. -/
def optimize (haveCandidates : Bool) (archetypes : Option (List Archetype))
    (numCandidates popSize : ℕ) (teamSize : ℤ) (sample : ℕ → List ℕ)
    (outputDirSet : Bool) : Except GAErr (List String) :=
  if haveCandidates = false then .error .noCandidates
  else
    match archetypes with
    | none => .error .noArchetypes
    | some archs =>
      match runArchetypes numCandidates popSize teamSize sample archs with
      | .error e => .error e
      | .ok results =>
        if outputDirSet && results.length == 0 then .error .noResults
        else .ok results

/-- Stable insertion of `a` into `l`, placing `a` before the first element
`b` with `le a b`. -/
def insertLe (le : ℕ → ℕ → Bool) (a : ℕ) : List ℕ → List ℕ
  | [] => [a]
  | b :: l => if le a b then a :: b :: l else b :: insertLe le a l

/-- Insertion sort by the boolean comparison `le` (ascending). -/
def insSort (le : ℕ → ℕ → Bool) : List ℕ → List ℕ
  | [] => []
  | a :: l => insertLe le a (insSort le l)

/-- Model of `np.argsort(fitnesses)` (line 357): the indices
`0 .. len-1` sorted so that the fitness values are ascending (`i` may come
before `j` whenever `fitnesses[j] < fitnesses[i]` is false; numpy leaves the
order of ties unspecified, and this model fixes one stable choice). -/
def argsortVal (fits : List Val) : List ℕ :=
  insSort (fun i j => ! Val.lt (fits.getD j .nan) (fits.getD i .nan)) (List.range fits.length)

/-- Python's `l[-k:]` for a non-negative `k` (line 357): the last `k`
elements — except that for `k = 0` the slice `l[-0:]` is `l[0:]`, the whole
list. -/
def pySliceLast (k : ℕ) (l : List α) : List α :=
  if k = 0 then l else l.drop (l.length - k)

/-- Line 356: `elitism_count = int(self.population_size * self.elitism_rate)`
(`int` truncates, which is the floor for the non-negative products the
configuration produces). -/
def elitismCount (popSize : ℕ) (rate : ℚ) : ℕ :=
  (⌊(popSize : ℚ) * rate⌋).toNat

/-- The `while len(next_population) < population_size` loop of
`optimize_for_archetype` (lines 364-378): each iteration asks the breeding
pipeline (`breed`, indexed by the current length) for a pair of children,
appends the first, and appends the second only if room remains.  `fuel`
bounds the number of iterations; every iteration appends at least one
element, so `fuel = popSize` always suffices. -/
def fillOffspring (breed : ℕ → List ℕ × List ℕ) (popSize : ℕ) :
    ℕ → List (List ℕ) → List (List ℕ)
  | 0, acc => acc
  | fuel + 1, acc =>
    if acc.length < popSize then
      let pair := breed acc.length
      let acc1 := acc ++ [pair.1]
      let acc2 := if acc1.length < popSize then acc1 ++ [pair.2] else acc1
      fillOffspring breed popSize fuel acc2
    else acc

/-- One generation's construction of the next population (lines 355-381):
`elite_indices = np.argsort(fitnesses)[-elitism_count:]` copied verbatim,
then offspring appended until the population size is reached. -/
def nextGeneration (popSize : ℕ) (rate : ℚ) (breed : ℕ → List ℕ × List ℕ)
    (pop : List (List ℕ)) (fits : List Val) : List (List ℕ) :=
  let eliteIndices := pySliceLast (elitismCount popSize rate) (argsortVal fits)
  let elite := eliteIndices.map (fun i => pop.getD i [])
  fillOffspring breed popSize popSize elite

/-- Lines 344-347: a NaN or infinite fitness returned by
`_calculate_fitness` is replaced by 0.0 before being appended to the
per-generation fitness list. -/
def sanitizeFit (v : Val) : Val := if v.isNaN || v.isInf then .num 0 else v

/-- The per-generation fitness list (lines 341-347): `_calculate_fitness`
(abstracted as `fit`) evaluated on every chromosome, each value sanitized. -/
def genFits (fit : List ℕ → Val) (pop : List (List ℕ)) : List Val :=
  pop.map (fun c => sanitizeFit (fit c))

/-- Model of `np.argmax` (line 350): the first index holding the maximum,
found by a left-to-right scan that moves only on a strictly greater value. -/
def argmaxIdx (l : List Val) : ℕ :=
  (List.range l.length).foldl
    (fun b i => if Val.lt (l.getD b .nan) (l.getD i .nan) then i else b) 0

/-- The state threaded through the evolution loop of
`optimize_for_archetype`: the best-ever chromosome and fitness (lines
334-336, initially `None` and `-inf`) and the current population. -/
structure GAState : Type where
  bestChromosome : Option (List ℕ)
  bestFitness : Val
  population : List (List ℕ)
deriving Repr

/-- One generation of `optimize_for_archetype` (lines 339-381): evaluate
and sanitize the fitnesses, update the best-ever pair only when the
generation's maximum is strictly greater, then build the next population. -/
def gaStep (fit : List ℕ → Val) (popSize : ℕ) (rate : ℚ)
    (breed : List (List ℕ) → List Val → ℕ → List ℕ × List ℕ)
    (st : GAState) : GAState :=
  let fits := genFits fit st.population
  let mi := argmaxIdx fits
  let genBest := fits.getD mi .nan
  if Val.lt st.bestFitness genBest then
    { bestChromosome := some (st.population.getD mi []),
      bestFitness := genBest,
      population := nextGeneration popSize rate (breed st.population fits) st.population fits }
  else
    { st with population := nextGeneration popSize rate (breed st.population fits) st.population fits }

/-- The state at the start of the evolution loop (lines 332-336). -/
def initialState (pop0 : List (List ℕ)) : GAState :=
  { bestChromosome := none, bestFitness := .ninf, population := pop0 }

/-- `g` generations of the evolution loop of `optimize_for_archetype`;
`breedG g` is the breeding pipeline of generation `g` with its randomness. -/
def optimizeForArchetype (fit : List ℕ → Val) (popSize : ℕ) (rate : ℚ)
    (breedG : ℕ → List (List ℕ) → List Val → ℕ → List ℕ × List ℕ)
    (st0 : GAState) : ℕ → GAState
  | 0 => st0
  | g + 1 => gaStep fit popSize rate (breedG g) (optimizeForArchetype fit popSize rate breedG st0 g)

/-- The fitness value returned by `optimize_for_archetype` (lines 390-395):
the tracked best-ever fitness, clamped to 0.0 when NaN or infinite. -/
def returnedFitness (st : GAState) : Val := sanitizeFit st.bestFitness

/-! ### Helper lemmas: float comparison -/

theorem Val.lt_irrefl (a : Val) : Val.lt a a = false := by
  cases a <;> simp [Val.lt]

theorem Val.lt_asymm_bool {a b : Val} (h : Val.lt a b = true) : Val.lt b a = false := by
  cases a <;> cases b <;>
    simp_all [Val.lt, decide_eq_true_eq, decide_eq_false_iff_not] <;> linarith

theorem Val.ne_nan_of_lt {a b : Val} (h : Val.lt a b = true) :
    a ≠ Val.nan ∧ b ≠ Val.nan := by
  cases a <;> cases b <;> simp_all [Val.lt]

theorem Val.lt_split {a b c : Val} (h : Val.lt a c = true) (hb : b ≠ Val.nan) :
    Val.lt a b = true ∨ Val.lt b c = true := by
  cases a <;> cases b <;> cases c <;>
    simp_all [Val.lt, decide_eq_true_eq] <;>
    exact (lt_or_le _ _).imp id fun h2 => lt_of_le_of_lt h2 h

theorem Val.not_lt_chain {a b c : Val} (hab : Val.lt a b = false)
    (hbc : Val.lt b c = false) (hb : b ≠ Val.nan) : Val.lt a c = false := by
  cases hac : Val.lt a c with
  | false => rfl
  | true => rcases Val.lt_split hac hb with h1 | h1 <;> simp_all

theorem sanitizeFit_shape (v : Val) : ∃ q : ℚ, sanitizeFit v = .num q := by
  cases v <;> exact ⟨_, rfl⟩

theorem genFits_shape {fit : List ℕ → Val} {pop : List (List ℕ)} :
    ∀ v ∈ genFits fit pop, ∃ q : ℚ, v = .num q := by
  intro v hv
  obtain ⟨c, _, hc⟩ := List.mem_map.mp hv
  obtain ⟨q, hq⟩ := sanitizeFit_shape (fit c)
  exact ⟨q, hc ▸ hq⟩

theorem getD_mem_of_lt {l : List Val} {n : ℕ} (h : n < l.length) :
    l.getD n .nan ∈ l := by
  rw [List.getD_eq_getElem l .nan h]
  exact List.getElem_mem h

/-! ### Helper lemmas: argmax and the best-ever tracking -/

theorem argmax_fold_spec (l : List Val) (hnan : ∀ v ∈ l, v ≠ Val.nan) :
    ∀ (idxs : List ℕ) (b : ℕ), (∀ i ∈ idxs, i < l.length) → b < l.length →
    (idxs.foldl (fun b i => if Val.lt (l.getD b .nan) (l.getD i .nan) then i else b) b)
        < l.length ∧
    Val.lt (l.getD (idxs.foldl
        (fun b i => if Val.lt (l.getD b .nan) (l.getD i .nan) then i else b) b) .nan)
      (l.getD b .nan) = false ∧
    ∀ i ∈ idxs,
      Val.lt (l.getD (idxs.foldl
          (fun b i => if Val.lt (l.getD b .nan) (l.getD i .nan) then i else b) b) .nan)
        (l.getD i .nan) = false := by
  intro idxs
  induction idxs with
  | nil =>
    intro b _ hb
    exact ⟨hb, Val.lt_irrefl _, by simp⟩
  | cons i rest ih =>
    intro b hidx hb
    have hi : i < l.length := hidx i (List.mem_cons_self i rest)
    have hrest : ∀ j ∈ rest, j < l.length := fun j hj => hidx j (List.mem_cons_of_mem i hj)
    have hbn : l.getD b .nan ≠ Val.nan := hnan _ (getD_mem_of_lt hb)
    have hin : l.getD i .nan ≠ Val.nan := hnan _ (getD_mem_of_lt hi)
    by_cases hcase : Val.lt (l.getD b .nan) (l.getD i .nan) = true
    · have hstep : (i :: rest).foldl
          (fun b i => if Val.lt (l.getD b .nan) (l.getD i .nan) then i else b) b
        = rest.foldl (fun b i => if Val.lt (l.getD b .nan) (l.getD i .nan) then i else b) i := by
        rw [List.foldl_cons, if_pos hcase]
      obtain ⟨h1, h2, h3⟩ := ih i hrest hi
      rw [hstep]
      refine ⟨h1, Val.not_lt_chain h2 (Val.lt_asymm_bool hcase) hin, ?_⟩
      intro j hj
      rcases List.mem_cons.mp hj with rfl | hj2
      · exact h2
      · exact h3 j hj2
    · have hcf : Val.lt (l.getD b .nan) (l.getD i .nan) = false :=
        eq_false_of_ne_true hcase
      have hstep : (i :: rest).foldl
          (fun b i => if Val.lt (l.getD b .nan) (l.getD i .nan) then i else b) b
        = rest.foldl (fun b i => if Val.lt (l.getD b .nan) (l.getD i .nan) then i else b) b := by
        rw [List.foldl_cons, if_neg hcase]
      obtain ⟨h1, h2, h3⟩ := ih b hrest hb
      rw [hstep]
      refine ⟨h1, h2, ?_⟩
      intro j hj
      rcases List.mem_cons.mp hj with rfl | hj2
      · exact Val.not_lt_chain h2 hcf hbn
      · exact h3 j hj2

theorem argmaxIdx_spec (l : List Val) (hne : l ≠ []) (hnan : ∀ v ∈ l, v ≠ Val.nan) :
    argmaxIdx l < l.length ∧
      ∀ v ∈ l, Val.lt (l.getD (argmaxIdx l) .nan) v = false := by
  have h0 : 0 < l.length := List.length_pos.mpr hne
  have hmain := argmax_fold_spec l hnan (List.range l.length) 0
    (fun i hi => List.mem_range.mp hi) h0
  refine ⟨hmain.1, ?_⟩
  intro v hv
  obtain ⟨n, hn, rfl⟩ := List.mem_iff_getElem.mp hv
  have hg : l.getD n .nan = l[n] := List.getD_eq_getElem l .nan hn
  rw [← hg]
  exact hmain.2.2 n (List.mem_range.mpr hn)

theorem gaStep_bestFitness_eq (fit : List ℕ → Val) (popSize : ℕ) (rate : ℚ)
    (breed : List (List ℕ) → List Val → ℕ → List ℕ × List ℕ) (st : GAState) :
    (gaStep fit popSize rate breed st).bestFitness =
      (if Val.lt st.bestFitness
          ((genFits fit st.population).getD (argmaxIdx (genFits fit st.population)) .nan)
        then (genFits fit st.population).getD (argmaxIdx (genFits fit st.population)) .nan
        else st.bestFitness) := by
  dsimp only [gaStep]
  split <;> rfl

theorem gaStep_mono (fit : List ℕ → Val) (popSize : ℕ) (rate : ℚ)
    (breed : List (List ℕ) → List Val → ℕ → List ℕ × List ℕ) (st : GAState) :
    Val.lt (gaStep fit popSize rate breed st).bestFitness st.bestFitness = false := by
  rw [gaStep_bestFitness_eq]
  split
  case isTrue h => exact Val.lt_asymm_bool h
  case isFalse h => exact Val.lt_irrefl _

theorem gaStep_change_or_improve (fit : List ℕ → Val) (popSize : ℕ) (rate : ℚ)
    (breed : List (List ℕ) → List Val → ℕ → List ℕ × List ℕ) (st : GAState) :
    (gaStep fit popSize rate breed st).bestFitness = st.bestFitness ∨
      Val.lt st.bestFitness (gaStep fit popSize rate breed st).bestFitness = true := by
  rw [gaStep_bestFitness_eq]
  split
  case isTrue h => exact Or.inr h
  case isFalse h => exact Or.inl rfl

theorem gaStep_ne_nan (fit : List ℕ → Val) (popSize : ℕ) (rate : ℚ)
    (breed : List (List ℕ) → List Val → ℕ → List ℕ × List ℕ) (st : GAState)
    (hst : st.bestFitness ≠ Val.nan) :
    (gaStep fit popSize rate breed st).bestFitness ≠ Val.nan := by
  rcases gaStep_change_or_improve fit popSize rate breed st with h | h
  · rw [h]; exact hst
  · exact (Val.ne_nan_of_lt h).2

theorem gaStep_ge_genFits (fit : List ℕ → Val) (popSize : ℕ) (rate : ℚ)
    (breed : List (List ℕ) → List Val → ℕ → List ℕ × List ℕ) (st : GAState)
    (hst : st.bestFitness ≠ Val.nan) :
    ∀ v ∈ genFits fit st.population,
      Val.lt (gaStep fit popSize rate breed st).bestFitness v = false := by
  intro v hv
  have hne : genFits fit st.population ≠ [] := List.ne_nil_of_mem hv
  have hnan : ∀ w ∈ genFits fit st.population, w ≠ Val.nan := by
    intro w hw
    obtain ⟨q, hq⟩ := genFits_shape w hw
    simp [hq]
  obtain ⟨hmi, hmax⟩ := argmaxIdx_spec _ hne hnan
  have hmem : (genFits fit st.population).getD (argmaxIdx (genFits fit st.population)) .nan
      ∈ genFits fit st.population := getD_mem_of_lt hmi
  rw [gaStep_bestFitness_eq]
  split
  case isTrue h => exact hmax v hv
  case isFalse h =>
    exact Val.not_lt_chain (eq_false_of_ne_true h) (hmax v hv) (hnan _ hmem)

theorem gaRun_bestFitness_ne_nan (fit : List ℕ → Val) (popSize : ℕ) (rate : ℚ)
    (breedG : ℕ → List (List ℕ) → List Val → ℕ → List ℕ × List ℕ)
    (pop0 : List (List ℕ)) (g : ℕ) :
    (optimizeForArchetype fit popSize rate breedG (initialState pop0) g).bestFitness
      ≠ Val.nan := by
  induction g with
  | zero => simp [optimizeForArchetype, initialState]
  | succ g ih => exact gaStep_ne_nan _ _ _ _ _ ih

theorem gaRun_mono (fit : List ℕ → Val) (popSize : ℕ) (rate : ℚ)
    (breedG : ℕ → List (List ℕ) → List Val → ℕ → List ℕ × List ℕ)
    (pop0 : List (List ℕ)) (g : ℕ) :
    Val.lt (optimizeForArchetype fit popSize rate breedG (initialState pop0) (g + 1)).bestFitness
      (optimizeForArchetype fit popSize rate breedG (initialState pop0) g).bestFitness
      = false :=
  gaStep_mono _ _ _ _ _

theorem gaRun_ge_of_lt (fit : List ℕ → Val) (popSize : ℕ) (rate : ℚ)
    (breedG : ℕ → List (List ℕ) → List Val → ℕ → List ℕ × List ℕ)
    (pop0 : List (List ℕ)) (gens g : ℕ) (hg : g < gens) :
    ∀ v ∈ genFits fit
        (optimizeForArchetype fit popSize rate breedG (initialState pop0) g).population,
      Val.lt (optimizeForArchetype fit popSize rate breedG (initialState pop0) gens).bestFitness
        v = false := by
  intro v hv
  induction gens with
  | zero => exact absurd hg (Nat.not_lt_zero g)
  | succ n ih =>
    rcases Nat.lt_succ_iff_lt_or_eq.mp hg with hlt | rfl
    · exact Val.not_lt_chain (gaStep_mono _ _ _ _ _) (ih hlt)
        (gaRun_bestFitness_ne_nan fit popSize rate breedG pop0 n)
    · exact gaStep_ge_genFits _ _ _ _ _
        (gaRun_bestFitness_ne_nan fit popSize rate breedG pop0 g) v hv

theorem Val.lt_nan_right (a : Val) : Val.lt a .nan = false := by
  cases a <;> rfl

theorem getD_mem_or_default (l : List Val) (n : ℕ) (d : Val) :
    l.getD n d ∈ l ∨ l.getD n d = d := by
  by_cases h : n < l.length
  · exact Or.inl (by rw [List.getD_eq_getElem l d h]; exact List.getElem_mem h)
  · exact Or.inr (List.getD_eq_default l d (le_of_not_lt h))

theorem gaStep_shape (fit : List ℕ → Val) (popSize : ℕ) (rate : ℚ)
    (breed : List (List ℕ) → List Val → ℕ → List ℕ × List ℕ) (st : GAState)
    (hst : st.bestFitness = Val.ninf ∨ ∃ q : ℚ, st.bestFitness = Val.num q) :
    (gaStep fit popSize rate breed st).bestFitness = Val.ninf ∨
      ∃ q : ℚ, (gaStep fit popSize rate breed st).bestFitness = Val.num q := by
  rw [gaStep_bestFitness_eq]
  split
  case isTrue h =>
    rcases getD_mem_or_default (genFits fit st.population)
        (argmaxIdx (genFits fit st.population)) .nan with hm | hd
    · exact Or.inr (genFits_shape _ hm)
    · rw [hd] at h
      exact absurd h (by simp [Val.lt_nan_right])
  case isFalse h => exact hst

theorem gaRun_shape (fit : List ℕ → Val) (popSize : ℕ) (rate : ℚ)
    (breedG : ℕ → List (List ℕ) → List Val → ℕ → List ℕ × List ℕ)
    (pop0 : List (List ℕ)) (g : ℕ) :
    (optimizeForArchetype fit popSize rate breedG (initialState pop0) g).bestFitness
        = Val.ninf ∨
      ∃ q : ℚ, (optimizeForArchetype fit popSize rate breedG (initialState pop0) g).bestFitness
        = Val.num q := by
  induction g with
  | zero => exact Or.inl rfl
  | succ g ih => exact gaStep_shape _ _ _ _ _ ih

theorem returnedFitness_ge (fit : List ℕ → Val) (popSize : ℕ) (rate : ℚ)
    (breedG : ℕ → List (List ℕ) → List Val → ℕ → List ℕ × List ℕ)
    (pop0 : List (List ℕ)) (gens g : ℕ) (hg : g < gens) :
    ∀ v ∈ genFits fit
        (optimizeForArchetype fit popSize rate breedG (initialState pop0) g).population,
      Val.lt (returnedFitness
          (optimizeForArchetype fit popSize rate breedG (initialState pop0) gens)) v
        = false := by
  intro v hv
  have h1 := gaRun_ge_of_lt fit popSize rate breedG pop0 gens g hg v hv
  obtain ⟨q, rfl⟩ := genFits_shape v hv
  rcases gaRun_shape fit popSize rate breedG pop0 gens with hb | ⟨qb, hb⟩
  · rw [hb] at h1
    exact absurd h1 (by simp [Val.lt])
  · rw [hb] at h1
    simpa [returnedFitness, sanitizeFit, Val.isNaN, Val.isInf, hb] using h1

/-- C8: within one run of `optimize_for_archetype` the tracked best-ever
fitness never decreases from one generation to the next, it changes only by
a strict improvement, and for every generation `g` of the run the returned
fitness is at least every (sanitized) fitness value evaluated in that
generation. -/
theorem C8_best_ever_fitness_monotone (fit : List ℕ → Val) (popSize : ℕ) (rate : ℚ)
    (breedG : ℕ → List (List ℕ) → List Val → ℕ → List ℕ × List ℕ)
    (pop0 : List (List ℕ)) :
    (∀ g : ℕ, Val.lt
        (optimizeForArchetype fit popSize rate breedG (initialState pop0) (g + 1)).bestFitness
        (optimizeForArchetype fit popSize rate breedG (initialState pop0) g).bestFitness
        = false)
  ∧ (∀ g : ℕ,
      (optimizeForArchetype fit popSize rate breedG (initialState pop0) (g + 1)).bestFitness
          = (optimizeForArchetype fit popSize rate breedG (initialState pop0) g).bestFitness
        ∨ Val.lt
            (optimizeForArchetype fit popSize rate breedG (initialState pop0) g).bestFitness
            (optimizeForArchetype fit popSize rate breedG (initialState pop0) (g + 1)).bestFitness
            = true)
  ∧ (∀ gens g : ℕ, g < gens → ∀ v ∈ genFits fit
        (optimizeForArchetype fit popSize rate breedG (initialState pop0) g).population,
      Val.lt (returnedFitness
          (optimizeForArchetype fit popSize rate breedG (initialState pop0) gens)) v
        = false) :=
  ⟨fun g => gaRun_mono fit popSize rate breedG pop0 g,
   fun g => gaStep_change_or_improve fit popSize rate (breedG g) _,
   fun gens g hg => returnedFitness_ge fit popSize rate breedG pop0 gens g hg⟩

/-- Witness for C8 at a concrete run: one generation, one chromosome, constant
fitness 1; the returned fitness is not below the single evaluated fitness. -/
theorem C8_witness :
    Val.lt (returnedFitness
        (optimizeForArchetype (fun _ => Val.num 1) 1 0 (fun _ _ _ _ => ([0], [0]))
          (initialState [[0]]) 1)) (Val.num 1) = false :=
  (C8_best_ever_fitness_monotone (fun _ => Val.num 1) 1 0 (fun _ _ _ _ => ([0], [0]))
      [[0]]).2.2 1 0 (by decide) (Val.num 1) (by decide)

/-- C10: every fitness value stored in a per-generation fitness list of the
evolution loop is a finite float, because `sanitizeFit` (the NaN/Inf clamp of
lines 344-346) is applied at evaluation time, before the list feeds the
best-ever update, the elitism ranking and the selection. -/
theorem C10_generation_fitnesses_finite :
    (∀ (fit : List ℕ → Val) (popSize : ℕ) (rate : ℚ)
        (breedG : ℕ → List (List ℕ) → List Val → ℕ → List ℕ × List ℕ)
        (pop0 : List (List ℕ)) (g : ℕ),
      ∀ v ∈ genFits fit
          (optimizeForArchetype fit popSize rate breedG (initialState pop0) g).population,
        v.isFinite = true)
  ∧ sanitizeFit .nan = .num 0 ∧ sanitizeFit .pinf = .num 0 ∧ sanitizeFit .ninf = .num 0
  ∧ ∀ q : ℚ, sanitizeFit (.num q) = .num q := by
  refine ⟨?_, rfl, rfl, rfl, fun q => rfl⟩
  intro fit popSize rate breedG pop0 g v hv
  obtain ⟨q, rfl⟩ := genFits_shape v hv
  rfl

/-- Witness for C10: in a concrete run whose raw fitness is constantly NaN,
the stored (sanitized) fitness value 0.0 is finite. -/
theorem C10_witness : (Val.num 0).isFinite = true :=
  C10_generation_fitnesses_finite.1 (fun _ => Val.nan) 1 0 (fun _ _ _ _ => ([], []))
    [[0]] 0 (Val.num 0) (by decide)

/-- C1 (code bug, `elitism_count = 0`): with `elitism_rate = 0` the slice
`np.argsort(fitnesses)[-0:]` is the whole index array, so the next
population is a verbatim copy of the entire current population (in
ascending-fitness order) and contains no offspring at all — here the
breeding pipeline would only ever produce the teams `[5]` and `[6]`, and
neither appears in the next population. -/
theorem C1_zero_elitism_copies_population :
    elitismCount 2 0 = 0
  ∧ nextGeneration 2 0 (fun _ => ([5], [6])) [[0], [1]] [.num 1, .num 2] = [[0], [1]]
  ∧ [5] ∉ nextGeneration 2 0 (fun _ => ([5], [6])) [[0], [1]] [.num 1, .num 2]
  ∧ [6] ∉ nextGeneration 2 0 (fun _ => ([5], [6])) [[0], [1]] [.num 1, .num 2] := by
  have hcount : elitismCount 2 0 = 0 := by norm_num [elitismCount]
  have hmain : nextGeneration 2 0 (fun _ => ([5], [6])) [[0], [1]] [.num 1, .num 2]
      = [[0], [1]] := by
    norm_num [nextGeneration, hcount, argsortVal, insSort, insertLe, pySliceLast,
      fillOffspring, Val.lt, List.range_succ]
  refine ⟨hcount, hmain, ?_, ?_⟩ <;> rw [hmain] <;> decide

/-- C2 (code bug): for a two-member team whose members score 0.5 on all
three skills (every (skill, member) slot covered), the code's
`skill_coverage` is 1/3 — it counts the distinct member rows of
`np.where(skill_matrix > 0.1)`, not the (skill-dimension, member) pairs —
while the claimed fraction of covered slots is 1. -/
theorem C2_skill_coverage_counts_rows :
    calculateSkillCoverage (fun _ => 1/2) (fun _ => 1/2) (fun _ => 1/2) [0, 1] = 1/3
  ∧ skillCoverageSpec (fun _ => 1/2) (fun _ => 1/2) (fun _ => 1/2) [0, 1] = 1
  ∧ ((1 : ℚ)/3) ≠ 1 := by
  refine ⟨?_, ?_, ?_⟩
  · norm_num [calculateSkillCoverage, List.range_succ, List.filter]
  · norm_num [skillCoverageSpec]
  · norm_num

/-- C3 counterexample: a positive-infinite score is not replaced with 0.0
by the load-time sanitation (`np.nan_to_num(..., nan=0.0)` maps it to the
largest finite float64 instead). -/
theorem C3_infinity_not_replaced_by_zero : nanToNum .pinf ≠ .num 0 := by
  have h : maxFloat64 ≠ 0 := by
    simp only [maxFloat64]
    rw [Nat.cast_ne_zero]
    positivity
  intro hc
  rw [nanToNum] at hc
  exact h (Val.num.inj hc)

/-- C3 (amended): the load-time sanitation makes every score finite and
replaces every NaN with 0.0, but replaces the infinities with the largest /
lowest finite float64 rather than with 0.0. -/
theorem C3_nan_zeroed_infinities_clamped :
    (∀ (scores : ℕ → Val) (i : ℕ), (sanitizePool scores i).isFinite = true)
  ∧ (∀ i : ℕ, sanitizePool (fun _ => .nan) i = .num 0)
  ∧ (∀ i : ℕ, sanitizePool (fun _ => .pinf) i = .num maxFloat64)
  ∧ (∀ i : ℕ, sanitizePool (fun _ => .ninf) i = .num (-maxFloat64))
  ∧ (∀ (q : ℚ) (i : ℕ), sanitizePool (fun _ => .num q) i = .num q) := by
  refine ⟨?_, fun i => rfl, fun i => rfl, fun i => rfl, fun q i => rfl⟩
  intro scores i
  cases h : scores i <;> simp [sanitizePool, nanToNum, h, Val.isFinite]

/-- C6 counterexample: `team_size = 0` is not rejected — population
initialization succeeds and produces `population_size` empty chromosomes. -/
theorem C6_team_size_zero_not_rejected :
    initializePopulation 5 3 0 (fun _ => []) = .ok [[], [], []] := rfl

theorem initLoop_ok (numCandidates : ℕ) (teamSize : ℤ) (sample : ℕ → List ℕ)
    (h1 : ¬ teamSize < 0) (h2 : ¬ (numCandidates : ℤ) < teamSize) :
    ∀ idxs : List ℕ, initLoop numCandidates teamSize sample idxs
      = .ok (idxs.map sample) := by
  intro idxs
  induction idxs with
  | nil => rfl
  | cons j rest ih =>
    simp only [initLoop, sampleChoice, if_neg h1, if_neg h2, ih, List.map_cons]

theorem sampleChoice_error (numCandidates : ℕ) (teamSize : ℤ) (sample : ℕ → List ℕ)
    (j : ℕ) (h : (numCandidates : ℤ) < teamSize ∨ teamSize < 0) :
    ∃ e, sampleChoice numCandidates teamSize sample j = .error e := by
  by_cases h1 : teamSize < 0
  · exact ⟨.negDimensions, by rw [sampleChoice, if_pos h1]⟩
  · have h2 : (numCandidates : ℤ) < teamSize := by
      rcases h with h | h
      · exact h
      · exact absurd h h1
    exact ⟨.sampleTooLarge, by rw [sampleChoice, if_neg h1, if_pos h2]⟩

/-- C6 (amended): population initialization raises exactly when at least one
chromosome is drawn (`population_size ≥ 1`) and `team_size > N` (numpy's
sample-too-large `ValueError`) or `team_size < 0` (numpy's
negative-dimensions `ValueError`); `team_size = 0` is accepted, and with
`population_size = 0` the drawing loop never runs so no `team_size` is ever
rejected. -/
theorem C6_initialization_error_iff (numCandidates popSize : ℕ) (teamSize : ℤ)
    (sample : ℕ → List ℕ) :
    (∃ e, initializePopulation numCandidates popSize teamSize sample = .error e) ↔
      (1 ≤ popSize ∧ ((numCandidates : ℤ) < teamSize ∨ teamSize < 0)) := by
  constructor
  · rintro ⟨e, he⟩
    rw [initializePopulation] at he
    by_cases hp : 1 ≤ popSize
    · refine ⟨hp, ?_⟩
      by_contra hcon
      push_neg at hcon
      rw [initLoop_ok numCandidates teamSize sample
        (not_lt.mpr hcon.2) (not_lt.mpr hcon.1) (List.range popSize)] at he
      exact absurd he (by simp)
    · have hz : popSize = 0 := by omega
      rw [hz] at he
      exact absurd he (by simp [initLoop])
  · rintro ⟨hp, hts⟩
    obtain ⟨k, rfl⟩ : ∃ k, popSize = k + 1 := ⟨popSize - 1, by omega⟩
    obtain ⟨e, he⟩ := sampleChoice_error numCandidates teamSize sample 0 hts
    exact ⟨e, by
      rw [initializePopulation, List.range_succ_eq_map]
      simp only [initLoop, he]⟩

/-- C7 counterexample: with an empty archetype list and no output directory,
`optimize` returns an empty result mapping instead of failing. -/
theorem C7_empty_archetype_list_returns_empty :
    optimize true (some []) 5 10 5 (fun _ => [0, 1, 2, 3, 4]) false = .ok [] := rfl

/-- C7 (amended): only a missing (`None`) archetype list raises at the
configuration check; an empty archetype list yields an empty mapping when no
output directory is set, and fails only afterwards inside `save_results`
when one is set; an empty candidate pool with a nonempty archetype list, a
positive `team_size` and a positive `population_size` fails inside the first
archetype's population initialization with numpy's sampling `ValueError`
(with `population_size = 0` initialization draws nothing and the eventual
failure happens later, in the evolution loop). -/
theorem C7_empty_inputs_behavior :
    (∀ (numCandidates popSize : ℕ) (teamSize : ℤ) (sample : ℕ → List ℕ),
      optimize true (some []) numCandidates popSize teamSize sample false = .ok [])
  ∧ (∀ (numCandidates popSize : ℕ) (teamSize : ℤ) (sample : ℕ → List ℕ),
      optimize true (some []) numCandidates popSize teamSize sample true
        = .error .noResults)
  ∧ (∀ (popSize : ℕ) (sample : ℕ → List ℕ) (a : Archetype) (rest : List Archetype)
        (teamSize : ℤ) (outputDirSet : Bool), 1 ≤ teamSize → 1 ≤ popSize →
      optimize true (some (a :: rest)) 0 popSize teamSize sample outputDirSet
        = .error .sampleTooLarge)
  ∧ (∀ (numCandidates popSize : ℕ) (teamSize : ℤ) (sample : ℕ → List ℕ)
        (outputDirSet : Bool),
      optimize true none numCandidates popSize teamSize sample outputDirSet
        = .error .noArchetypes) := by
  refine ⟨fun _ _ _ _ => rfl, fun _ _ _ _ => rfl, ?_, fun _ _ _ _ _ => rfl⟩
  intro popSize sample a rest teamSize outputDirSet hts hpop
  obtain ⟨k, rfl⟩ : ∃ k, popSize = k + 1 := ⟨popSize - 1, by omega⟩
  have h1 : ¬ teamSize < 0 := by omega
  have h2 : ((0 : ℕ) : ℤ) < teamSize := by
    rw [Nat.cast_zero]
    omega
  have hinit : initializePopulation 0 (k + 1) teamSize sample
      = .error .sampleTooLarge := by
    rw [initializePopulation, List.range_succ_eq_map]
    simp only [initLoop, sampleChoice, if_neg h1, if_pos h2]
  simp only [optimize, runArchetypes, hinit]
  rfl

/-- Witness for C7's amended statement, discharging its `team_size ≥ 1` and
`population_size ≥ 1` hypotheses at a concrete input. -/
theorem C7_witness :
    optimize true (some [⟨"alpha"⟩]) 0 10 1 (fun _ => []) true
      = .error .sampleTooLarge :=
  C7_empty_inputs_behavior.2.2.1 10 (fun _ => []) ⟨"alpha"⟩ [] 1 true
    (by decide) (by decide)

/-! ### Helper lemmas: mutation -/

theorem candidatesNotInTeam_mem {numCandidates : ℕ} {mutated : List ℕ} {x : ℕ}
    (hx : x ∈ candidatesNotInTeam numCandidates mutated) :
    x < numCandidates ∧ x ∉ mutated := by
  obtain ⟨h1, h2⟩ := List.mem_filter.mp hx
  exact ⟨List.mem_range.mp h1, of_decide_eq_true h2⟩

theorem mutateAt_cases (numCandidates pick i : ℕ) (mutated : List ℕ) :
    mutateAt numCandidates pick i mutated = mutated ∨
      ∃ e, e ∉ mutated ∧ e < numCandidates ∧
        mutateAt numCandidates pick i mutated = mutated.set i e := by
  unfold mutateAt
  by_cases h : (candidatesNotInTeam numCandidates mutated).length = 0
  · rw [if_pos h]
    exact Or.inl rfl
  · rw [if_neg h]
    have hlt : pick % (candidatesNotInTeam numCandidates mutated).length
        < (candidatesNotInTeam numCandidates mutated).length :=
      Nat.mod_lt _ (Nat.pos_of_ne_zero h)
    have hmem : (candidatesNotInTeam numCandidates mutated).getD
        (pick % (candidatesNotInTeam numCandidates mutated).length) 0
        ∈ candidatesNotInTeam numCandidates mutated := by
      rw [List.getD_eq_getElem _ 0 hlt]
      exact List.getElem_mem hlt
    obtain ⟨hlt2, hnotin⟩ := candidatesNotInTeam_mem hmem
    exact Or.inr ⟨_, hnotin, hlt2, rfl⟩

theorem mutateAt_valid {numCandidates : ℕ} {mutated : List ℕ}
    (h : validChromosome numCandidates mutated) (pick i : ℕ) :
    validChromosome numCandidates (mutateAt numCandidates pick i mutated) ∧
      (mutateAt numCandidates pick i mutated).length = mutated.length := by
  rcases mutateAt_cases numCandidates pick i mutated with heq | ⟨e, he1, he2, heq⟩
  · rw [heq]
    exact ⟨h, rfl⟩
  · rw [heq]
    refine ⟨⟨h.1.set he1, ?_⟩, List.length_set mutated i e⟩
    intro x hx
    rcases List.mem_or_eq_of_mem_set hx with hx2 | rfl
    · exact h.2 x hx2
    · exact he2

theorem mutate_fold_valid (numCandidates : ℕ) (flip : ℕ → Bool) (pick : ℕ → ℕ) :
    ∀ (idxs : List ℕ) (cur : List ℕ), validChromosome numCandidates cur →
      validChromosome numCandidates (idxs.foldl
        (fun mutated i => if flip i then mutateAt numCandidates (pick i) i mutated
          else mutated) cur) ∧
      (idxs.foldl (fun mutated i => if flip i then mutateAt numCandidates (pick i) i mutated
          else mutated) cur).length = cur.length := by
  intro idxs
  induction idxs with
  | nil =>
    intro cur hc
    exact ⟨hc, rfl⟩
  | cons i rest ih =>
    intro cur hc
    rw [List.foldl_cons]
    by_cases hf : flip i = true
    · rw [if_pos hf]
      obtain ⟨hv, hl⟩ := mutateAt_valid hc (pick i) i
      obtain ⟨hv2, hl2⟩ := ih _ hv
      exact ⟨hv2, hl2.trans hl⟩
    · rw [if_neg hf]
      exact ih cur hc

theorem candidatesNotInTeam_eq_nil {numCandidates : ℕ} {chrom : List ℕ}
    (h : validChromosome numCandidates chrom) (hlen : chrom.length = numCandidates) :
    candidatesNotInTeam numCandidates chrom = [] := by
  rw [candidatesNotInTeam, List.filter_eq_nil_iff]
  intro x hx
  have hmem : x ∈ chrom := by
    have hsub : chrom.toFinset ⊆ Finset.range numCandidates := by
      intro y hy
      rw [Finset.mem_range]
      exact h.2 y (List.mem_toFinset.mp hy)
    have hcard : chrom.toFinset.card = numCandidates := by
      rw [List.toFinset_card_of_nodup h.1, hlen]
    have heq : chrom.toFinset = Finset.range numCandidates :=
      Finset.eq_of_subset_of_card_le hsub (by rw [hcard, Finset.card_range])
    rw [← List.mem_toFinset, heq, Finset.mem_range]
    exact List.mem_range.mp hx
  simp [hmem]

theorem mutate_full_team {numCandidates : ℕ} (flip : ℕ → Bool) (pick : ℕ → ℕ)
    {chrom : List ℕ} (h : validChromosome numCandidates chrom)
    (hlen : chrom.length = numCandidates) :
    mutate numCandidates flip pick chrom = chrom := by
  have hstep : ∀ i p, mutateAt numCandidates p i chrom = chrom := by
    intro i p
    unfold mutateAt
    rw [candidatesNotInTeam_eq_nil h hlen]
    simp
  rw [mutate]
  generalize List.range chrom.length = idxs
  induction idxs with
  | nil => rfl
  | cons i rest ih =>
    rw [List.foldl_cons]
    by_cases hf : flip i = true
    · rw [if_pos hf, hstep i (pick i)]
      exact ih
    · rw [if_neg hf]
      exact ih

/-- C5: for every valid chromosome and every mutation draw (any pattern of
coin flips, so also mutation rate 1.0), the mutated chromosome is valid
(same length, pairwise-distinct genes in `[0, N)`); each replacement gene is
drawn from the complement of the current, possibly-already-mutated
chromosome (or the position is untouched when no out-of-team index exists);
and when `team_size = N` the whole pass is a no-op. -/
theorem C5_mutation_closure (numCandidates : ℕ) (flip : ℕ → Bool) (pick : ℕ → ℕ)
    (chromosome : List ℕ) (h : validChromosome numCandidates chromosome) :
    validChromosome numCandidates (mutate numCandidates flip pick chromosome)
  ∧ (mutate numCandidates flip pick chromosome).length = chromosome.length
  ∧ (chromosome.length = numCandidates →
      mutate numCandidates flip pick chromosome = chromosome)
  ∧ (∀ (cur : List ℕ) (p i : ℕ), mutateAt numCandidates p i cur = cur ∨
      ∃ e, e ∉ cur ∧ e < numCandidates ∧ mutateAt numCandidates p i cur = cur.set i e) := by
  obtain ⟨hv, hl⟩ := mutate_fold_valid numCandidates flip pick
    (List.range chromosome.length) chromosome h
  exact ⟨hv, hl, fun hlen => mutate_full_team flip pick h hlen,
    fun cur p i => mutateAt_cases numCandidates p i cur⟩

/-- Witness for C5 at a concrete input: pool of 3 candidates, chromosome
`[0, 1]`, mutation fires at every position. -/
theorem C5_witness :
    validChromosome 3 (mutate 3 (fun _ => true) (fun _ => 0) [0, 1])
  ∧ (mutate 3 (fun _ => true) (fun _ => 0) [0, 1]).length = ([0, 1] : List ℕ).length
  ∧ (([0, 1] : List ℕ).length = 3 → mutate 3 (fun _ => true) (fun _ => 0) [0, 1] = [0, 1])
  ∧ (∀ (cur : List ℕ) (p i : ℕ), mutateAt 3 p i cur = cur ∨
      ∃ e, e ∉ cur ∧ e < 3 ∧ mutateAt 3 p i cur = cur.set i e) :=
  C5_mutation_closure 3 (fun _ => true) (fun _ => 0) [0, 1] ⟨by decide, by decide⟩

/-! ### Helper lemmas: randint and crossover -/

theorem randint_ok {lo hi : ℤ} (h : lo ≤ hi) (choice : ℕ) :
    randint lo hi choice = .ok (lo + (choice : ℤ) % (hi - lo + 1)) ∧
      lo ≤ lo + (choice : ℤ) % (hi - lo + 1) ∧
      lo + (choice : ℤ) % (hi - lo + 1) ≤ hi := by
  have hpos : 0 < hi - lo + 1 := by omega
  have hnn : 0 ≤ (choice : ℤ) % (hi - lo + 1) := Int.emod_nonneg _ (by omega)
  have hlt : (choice : ℤ) % (hi - lo + 1) < hi - lo + 1 := Int.emod_lt_of_pos _ hpos
  exact ⟨by rw [randint, if_neg (not_lt.mpr h)], by omega, by omega⟩

/-- C9: when the crossover branch is actually taken, `_crossover` raises on
chromosomes of length 1 (the segment start is drawn from the empty range
`randint(0, -1)`), and it returns normally for every chromosome of length at
least 2, whatever the two segment draws are. -/
theorem C9_crossover_raises_on_singleton :
    (∀ (c1 c2 : ℕ) (p1 p2 : List ℕ), p1.length = 1 →
      crossover true c1 c2 p1 p2 = .error .emptyRange)
  ∧ (∀ (c1 c2 : ℕ) (p1 p2 : List ℕ), 2 ≤ p1.length →
      ∃ kids, crossover true c1 c2 p1 p2 = .ok kids) := by
  constructor
  · intro c1 c2 p1 p2 hlen
    have hr : randint 0 ((p1.length : ℤ) - 2) c1 = .error .emptyRange := by
      rw [randint, if_pos (by rw [hlen]; norm_num)]
    rw [crossover, if_neg (by simp), hr]
  · intro c1 c2 p1 p2 hlen
    have hge1 : (0 : ℤ) ≤ (p1.length : ℤ) - 2 := by omega
    obtain ⟨h1ok, h1lo, h1hi⟩ := randint_ok hge1 c1
    have hge2 : (0 : ℤ) + (c1 : ℤ) % ((p1.length : ℤ) - 2 - 0 + 1) + 1
        ≤ (p1.length : ℤ) - 1 := by omega
    obtain ⟨h2ok, _, _⟩ := randint_ok hge2 c2
    exact ⟨_, by rw [crossover, if_neg (by simp), h1ok]; dsimp only; rw [h2ok]⟩

/-- Witness for C9: length-1 parents raise; length-2 parents succeed. -/
theorem C9_witness :
    crossover true 0 0 [3] [4] = .error .emptyRange
  ∧ ∃ kids, crossover true 0 0 [1, 2] [3, 4] = .ok kids :=
  ⟨C9_crossover_raises_on_singleton.1 0 0 [3] [4] rfl,
   C9_crossover_raises_on_singleton.2 0 0 [1, 2] [3, 4] (by norm_num)⟩

theorem nodup_subset_length_le {l s : List ℕ} (hl : l.Nodup) (hs : l ⊆ s) :
    l.length ≤ s.length :=
  (List.subperm_of_subset hl hs).length_le

theorem remaining_length_ge {pb seg : List ℕ} (hnb : pb.Nodup) :
    pb.length ≤ (pb.filter (fun x => decide (x ∉ seg))).length + seg.length := by
  have hsplit := @List.length_eq_length_filter_add _ pb (fun x => decide (x ∉ seg))
  have hle : (pb.filter (fun x => ! decide (x ∉ seg))).length ≤ seg.length := by
    apply nodup_subset_length_le (hnb.filter _)
    intro x hx
    have h2 := (List.mem_filter.mp hx).2
    simp only [Bool.not_eq_true', decide_eq_false_iff_not, not_not] at h2
    exact h2
  omega

theorem oxChild_valid (pa pb : List ℕ) (n start endi : ℕ)
    (ha : pa.length = n) (hb : pb.length = n) (hna : pa.Nodup) (hnb : pb.Nodup)
    (hse : start < endi) (hen : endi < n) :
    (oxChild start (n - 1 - endi) ((pa.drop start).take (endi + 1 - start))
        (pb.filter (fun x => decide (x ∉ (pa.drop start).take (endi + 1 - start))))).length = n
  ∧ (oxChild start (n - 1 - endi) ((pa.drop start).take (endi + 1 - start))
        (pb.filter (fun x => decide (x ∉ (pa.drop start).take (endi + 1 - start))))).Nodup
  ∧ ∀ x ∈ oxChild start (n - 1 - endi) ((pa.drop start).take (endi + 1 - start))
        (pb.filter (fun x => decide (x ∉ (pa.drop start).take (endi + 1 - start)))),
      x ∈ pa ∨ x ∈ pb := by
  set seg := (pa.drop start).take (endi + 1 - start) with hseg
  set rem := pb.filter (fun x => decide (x ∉ seg)) with hrem
  have hsegnodup : seg.Nodup :=
    List.Nodup.sublist ((List.take_sublist _ _).trans (List.drop_sublist _ _)) hna
  have hremnodup : rem.Nodup := hnb.filter _
  have hseglen : seg.length = endi + 1 - start := by
    rw [hseg, List.length_take, List.length_drop, ha]
    omega
  have hremlen : start + (n - 1 - endi) ≤ rem.length := by
    have hge := @remaining_length_ge pb seg hnb
    rw [hb, ← hrem] at hge
    omega
  have hAlen : (rem.take start).length = start := by
    rw [List.length_take]
    omega
  have hClen : ((rem.drop start).take (n - 1 - endi)).length = n - 1 - endi := by
    rw [List.length_take, List.length_drop]
    omega
  have hAsub : ∀ x ∈ rem.take start, x ∈ rem := fun x hx => List.mem_of_mem_take hx
  have hCsub : ∀ x ∈ (rem.drop start).take (n - 1 - endi), x ∈ rem := fun x hx =>
    List.mem_of_mem_drop (List.mem_of_mem_take hx)
  have hremmem : ∀ x ∈ rem, x ∈ pb ∧ x ∉ seg := by
    intro x hx
    obtain ⟨h1, h2⟩ := List.mem_filter.mp hx
    exact ⟨h1, of_decide_eq_true h2⟩
  have hsegmem : ∀ x ∈ seg, x ∈ pa := fun x hx =>
    List.mem_of_mem_drop (List.mem_of_mem_take hx)
  refine ⟨?_, ?_, ?_⟩
  · rw [oxChild, List.length_append, List.length_append, hAlen, hseglen, hClen]
    omega
  · rw [oxChild]
    refine List.nodup_append.mpr
      ⟨List.nodup_append.mpr ⟨List.Nodup.sublist (List.take_sublist _ _) hremnodup,
        hsegnodup, ?_⟩,
       List.Nodup.sublist (List.take_sublist _ _)
         (List.Nodup.sublist (List.drop_sublist _ _) hremnodup), ?_⟩
    · intro x hxA hxseg
      exact (hremmem x (hAsub x hxA)).2 hxseg
    · intro x hx2 hxC
      rcases List.mem_append.mp hx2 with hxA | hxseg
      · exact List.disjoint_take_drop hremnodup (le_refl start)
          hxA (List.mem_of_mem_take hxC)
      · exact (hremmem x (hCsub x hxC)).2 hxseg
  · intro x hx
    rw [oxChild] at hx
    rcases List.mem_append.mp hx with hx2 | hxC
    · rcases List.mem_append.mp hx2 with hxA | hxseg
      · exact Or.inr (hremmem x (hAsub x hxA)).1
      · exact Or.inl (hsegmem x hxseg)
    · exact Or.inr (hremmem x (hCsub x hxC)).1

/-- C4: crossover closure — whenever `_crossover` returns (in either the
copy-parents branch or the performed-crossover branch), both children have
the parents' common length, pairwise-distinct genes inside the pool, and
every gene comes from one of the two parents. -/
theorem C4_crossover_closure (numCandidates : ℕ) (doCross : Bool) (c1 c2 : ℕ)
    (p1 p2 ch1 ch2 : List ℕ) (hlen : p1.length = p2.length)
    (h1 : validChromosome numCandidates p1) (h2 : validChromosome numCandidates p2)
    (hok : crossover doCross c1 c2 p1 p2 = .ok (ch1, ch2)) :
    (ch1.length = p1.length ∧ validChromosome numCandidates ch1 ∧
      ∀ x ∈ ch1, x ∈ p1 ∨ x ∈ p2)
  ∧ (ch2.length = p1.length ∧ validChromosome numCandidates ch2 ∧
      ∀ x ∈ ch2, x ∈ p1 ∨ x ∈ p2) := by
  by_cases hd : doCross = false
  · rw [crossover, if_pos hd] at hok
    have hpair := Except.ok.inj hok
    obtain ⟨rfl, rfl⟩ : p1 = ch1 ∧ p2 = ch2 :=
      ⟨congrArg Prod.fst hpair, congrArg Prod.snd hpair⟩
    exact ⟨⟨rfl, h1, fun x hx => Or.inl hx⟩, ⟨hlen.symm, h2, fun x hx => Or.inr hx⟩⟩
  · rw [crossover, if_neg hd] at hok
    have hge1 : (0 : ℤ) ≤ (p1.length : ℤ) - 2 := by
      by_contra hc
      rw [randint, if_pos (by omega)] at hok
      simp at hok
    obtain ⟨h1ok, hs0, hs2⟩ := randint_ok hge1 c1
    rw [h1ok] at hok
    dsimp only at hok
    set s : ℤ := 0 + (c1 : ℤ) % ((p1.length : ℤ) - 2 - 0 + 1) with hs
    have hge2 : s + 1 ≤ (p1.length : ℤ) - 1 := by omega
    obtain ⟨h2ok, he1, he2b⟩ := randint_ok hge2 c2
    rw [h2ok] at hok
    dsimp only at hok
    set e : ℤ := s + 1 + (c2 : ℤ) % ((p1.length : ℤ) - 1 - (s + 1) + 1) with he
    have hkids := Except.ok.inj hok
    simp only [crossoverKids] at hkids
    injection hkids with hk1 hk2
    subst hk1
    subst hk2
    have hstart_lt : s.toNat < e.toNat := by omega
    have hend_lt : e.toNat < p1.length := by omega
    have hv1 := oxChild_valid p1 p2 p1.length s.toNat e.toNat rfl hlen.symm h1.1 h2.1
      hstart_lt hend_lt
    have hv2 := oxChild_valid p2 p1 p1.length s.toNat e.toNat hlen.symm rfl h2.1 h1.1
      hstart_lt hend_lt
    refine ⟨⟨hv1.1, ⟨hv1.2.1, ?_⟩, hv1.2.2⟩, ⟨hv2.1, ⟨hv2.2.1, ?_⟩, ?_⟩⟩
    · intro x hx
      rcases hv1.2.2 x hx with h | h
      · exact h1.2 x h
      · exact h2.2 x h
    · intro x hx
      rcases hv2.2.2 x hx with h | h
      · exact h2.2 x h
      · exact h1.2 x h
    · intro x hx
      exact (hv2.2.2 x hx).symm

/-- Witness for C4: parents `[0, 1]` and `[2, 3]` over a pool of 4, with the
crossover branch taken and both segment draws 0 (the children evaluate to
`[0, 1]` and `[2, 3]`). -/
theorem C4_witness :
    (([0, 1] : List ℕ).length = ([0, 1] : List ℕ).length ∧ validChromosome 4 [0, 1] ∧
      ∀ x ∈ ([0, 1] : List ℕ), x ∈ ([0, 1] : List ℕ) ∨ x ∈ ([2, 3] : List ℕ))
  ∧ (([2, 3] : List ℕ).length = ([0, 1] : List ℕ).length ∧ validChromosome 4 [2, 3] ∧
      ∀ x ∈ ([2, 3] : List ℕ), x ∈ ([0, 1] : List ℕ) ∨ x ∈ ([2, 3] : List ℕ)) :=
  C4_crossover_closure 4 true 0 0 [0, 1] [2, 3] [0, 1] [2, 3] rfl
    ⟨by decide, by decide⟩ ⟨by decide, by decide⟩ rfl
